import Mathlib

/-!
Verification of the event-data validation action: the position resolver
(getPosition), the node locator and the error annotation pipeline, the
per-file validation pipeline, the index builder and the top-level
exception boundary, embedded shallowly from the TypeScript source.
-/

/-- A line/column pair as produced by the position resolver. -/
@[ext]
structure Position where
  line : Int
  column : Int
  deriving DecidableEq, Repr

/-- Model of the JavaScript expression text.split(sep): splits a character
list at every occurrence of the separator, keeping empty segments, so the
result always has (number of separators) + 1 segments. -/
def jsSplit (sep : Char) : List Char → List (List Char)
  | [] => [[]]
  | c :: cs =>
    let r := jsSplit sep cs
    if c = sep then [] :: r else (c :: r.headI) :: r.tail

/-- Largest index j with j < bound and text[j] = c, as an Int; -1 when
there is none. -/
def lastIdxBelow (c : Char) (text : List Char) : Nat → Int
  | 0 => -1
  | k + 1 => if text[k]? = some c then (k : Int) else lastIdxBelow c text k

/-- Model of JavaScript String.prototype.lastIndexOf for a one-character
needle: the fromIndex is clamped into the range 0..text.length first, and
the search returns the largest index at or below the clamped fromIndex
holding the character, or -1. -/
def lastIndexOf (c : Char) (text : List Char) (fromIndex : Int) : Int :=
  lastIdxBelow c text ((min (max fromIndex 0) (text.length : Int)).toNat + 1)

/-- The position resolver getPosition from the source: line is
text.slice(0, offset).split(newline).length - 1 and column is
offset - text.lastIndexOf(newline, offset - 1) - 1. -/
def getPosition (text : List Char) (offset : Nat) : Position :=
  { line := ((jsSplit '\n' (text.take offset)).length : Int) - 1,
    column := (offset : Int) - lastIndexOf '\n' text ((offset : Int) - 1) - 1 }

/-- Sum of (segment length + 1) over the first m segments of a segment
list; rebuilds the character offset at which the m-th line starts. -/
def sumFirst : List (List Char) → Nat → Int
  | _, 0 => 0
  | [], _ + 1 => 0
  | l :: ls, m + 1 => (l.length : Int) + 1 + sumFirst ls m

/-- Rebuild an offset from a resolved position together with the text's
line lengths, as the round-trip in the spec describes. -/
def reconstruct (text : List Char) (p : Position) : Int :=
  sumFirst (jsSplit '\n' text) p.line.toNat + p.column

/-- Lexicographic order on positions: earlier line, or same line and a
column at most as large. -/
def Position.lexLe (p q : Position) : Prop :=
  p.line < q.line ∨ (p.line = q.line ∧ p.column ≤ q.column)

instance (p q : Position) : Decidable (Position.lexLe p q) :=
  inferInstanceAs (Decidable (p.line < q.line ∨ (p.line = q.line ∧ p.column ≤ q.column)))

/-- One step of a logical path into a JSON document: an object key or an
array index. -/
inductive PathStep where
  | key (s : String)
  | idx (n : Nat)
  deriving DecidableEq, Repr

/-- One schema-validation issue as the validation collaborator reports it:
a logical path and a message. -/
structure Issue where
  path : List PathStep
  message : String
  deriving DecidableEq, Repr

/-- Modelled from the spec: a node of the position-aware parse tree of the
jsonc-parser dependency (not under src), carrying its offset and length
and, for objects and arrays, its ordered children. -/
inductive JsonNode where
  | obj (offset length : Nat) (props : List (String × JsonNode))
  | arr (offset length : Nat) (elems : List JsonNode)
  | lit (offset length : Nat)

def JsonNode.offset : JsonNode → Nat
  | JsonNode.obj o _ _ => o
  | JsonNode.arr o _ _ => o
  | JsonNode.lit o _ => o

def JsonNode.length : JsonNode → Nat
  | JsonNode.obj _ n _ => n
  | JsonNode.arr _ n _ => n
  | JsonNode.lit _ n => n

/-- Modelled from the spec: one step of the locator's descent — a string
step must match an object key exactly (first match wins), an integer step
must index an array's children; anything else fails with none. -/
def resolveStep (node : JsonNode) (step : PathStep) : Option JsonNode :=
  match node, step with
  | JsonNode.obj _ _ props, PathStep.key s =>
    (props.find? (fun p => p.1 == s)).map (fun p => p.2)
  | JsonNode.arr _ _ elems, PathStep.idx i => elems[i]?
  | _, _ => none

/-- Modelled from the spec: findNodeAtLocation from the jsonc-parser
dependency (not under src) — descends the tree one path step at a time,
returning none as soon as a step cannot be resolved; the empty path
resolves to the root. -/
def findNodeAtLocation (node : JsonNode) (path : List PathStep) : Option JsonNode :=
  match path with
  | [] => some node
  | step :: rest =>
    match resolveStep node step with
    | some n => findNodeAtLocation n rest
    | none => none

/-- One emitted core.error call: message, file and the four optional span
fields. -/
structure Diagnostic where
  message : String
  file : String
  startLine : Option Int
  startColumn : Option Int
  endLine : Option Int
  endColumn : Option Int
  deriving DecidableEq, Repr

/-- The loop body shared by run and SchemaValidationError.annotate: when
the locator finds a node, the four span fields hold the 1-indexed
positions at node.offset and node.offset + node.length; otherwise all four
are absent and only message and file remain. -/
def issueDiagnostic (file : String) (content : List Char) (tree : JsonNode)
    (issue : Issue) : Diagnostic :=
  match findNodeAtLocation tree issue.path with
  | some node =>
    { message := issue.message, file := file,
      startLine := some ((getPosition content node.offset).line + 1),
      startColumn := some ((getPosition content node.offset).column + 1),
      endLine := some ((getPosition content (node.offset + node.length)).line + 1),
      endColumn := some ((getPosition content (node.offset + node.length)).column + 1) }
  | none =>
    { message := issue.message, file := file,
      startLine := none, startColumn := none, endLine := none, endColumn := none }

/-- The schema-failure annotation loop from the source: a null parse tree
makes it return before emitting anything; otherwise it emits one
diagnostic per issue, in order. -/
def annotateIssues (file : String) (content : List Char) (tree : Option JsonNode)
    (issues : List Issue) : List Diagnostic :=
  match tree with
  | none => []
  | some t => issues.map (issueDiagnostic file content t)

/-- The parsed-and-validated data of one event file; its contents are
opaque to the pipeline. -/
structure EventData where
  payload : List Char
  deriving DecidableEq, Repr

/-- The externally supplied facts about one discovered file: its relative
path and text, whether its name is hidden (starts with a dot), whether
JSON.parse succeeds on it, the schema validation outcome, and the tree
the jsonc-parser parseTree call returns for it. -/
structure FileInput where
  path : String
  content : List Char
  hidden : Bool
  jsonParses : Bool
  schema : Except (List Issue) EventData
  tree : Option JsonNode

/-- What one per-file task of run contributes: its errorCount increment,
its emitted diagnostics, its info log lines and the event it registers. -/
structure FileResult where
  errorCountDelta : Nat
  diagnostics : List Diagnostic
  infoLogs : List String
  registered : Option (String × EventData)
  deriving DecidableEq, Repr

/-- The per-file task of run: skip hidden names; on a JSON parse failure
count the file once and emit the parse-failure diagnostic with the file
only; on a schema failure count the file once and run the annotation
loop; on success register the event and log one info line. -/
def processFile (f : FileInput) : FileResult :=
  if f.hidden then
    { errorCountDelta := 0, diagnostics := [], infoLogs := [], registered := none }
  else if f.jsonParses then
    match f.schema with
    | Except.error issues =>
      { errorCountDelta := 1,
        diagnostics := annotateIssues f.path f.content f.tree issues,
        infoLogs := [],
        registered := none }
    | Except.ok d =>
      { errorCountDelta := 0,
        diagnostics := [],
        infoLogs := [("Validated event: ") ++ f.path],
        registered := some (f.path, d) }
  else
    { errorCountDelta := 1,
      diagnostics := [{ message := ("Failed to parse JSON in file: ") ++ f.path,
                        file := f.path, startLine := none, startColumn := none,
                        endLine := none, endColumn := none }],
      infoLogs := [],
      registered := none }

/-- The terminal state of one file in the checkEvents task. -/
inductive CheckResult where
  | skipped
  | ok
  | parseErr (path : String)
  | schemaErr (path : String) (issues : List Issue) (tree : Option JsonNode)
      (content : List Char)

/-- The per-file task of checkEvents: skip hidden names, throw
JSONParseError on a parse failure, throw SchemaValidationError on a
schema failure, otherwise succeed. -/
def checkFile (f : FileInput) : CheckResult :=
  if f.hidden then CheckResult.skipped
  else if f.jsonParses then
    match f.schema with
    | Except.error issues => CheckResult.schemaErr f.path issues f.tree f.content
    | Except.ok _ => CheckResult.ok
  else CheckResult.parseErr f.path

/-- JSONParseError.annotate and SchemaValidationError.annotate from
checkEvents: the parse error emits the fixed message with the file only;
the schema error runs the annotation loop (nothing when the tree is
null). -/
def checkDiagnostics : CheckResult → List Diagnostic
  | CheckResult.parseErr p =>
    [{ message := ("Invalid JSON file!"), file := p,
       startLine := none, startColumn := none, endLine := none, endColumn := none }]
  | CheckResult.schemaErr p issues tree content => annotateIssues p content tree issues
  | CheckResult.skipped => []
  | CheckResult.ok => []

/-- Whether the file's task counts as rejected in checkEvents (it threw). -/
def isRejected : CheckResult → Bool
  | CheckResult.parseErr _ => true
  | CheckResult.schemaErr _ _ _ _ => true
  | _ => false

/-- The observable end of run: the setFailed message, if any, and the
final info log line, if any. -/
structure RunEnd where
  setFailedMsg : Option String
  infoMsg : Option String
  deriving DecidableEq, Repr

/-- The errorCount accumulated over all files of run. -/
def totalErrors (files : List FileInput) : Nat :=
  (files.map (fun f => (processFile f).errorCountDelta)).sum

/-- The tail of run after all files settle: setFailed with the count when
errorCount is positive, otherwise the completion info line. -/
def runEnd (errorCount : Nat) : RunEnd :=
  if 0 < errorCount then
    { setFailedMsg := some (("Event data validation failed for ") ++ toString errorCount
        ++ (" event(s).")),
      infoMsg := none }
  else
    { setFailedMsg := none, infoMsg := some ("Complete") }

/-- One entry of the .index.json manifest. -/
structure IndexEntry where
  path : String
  url : String
  deriving DecidableEq, Repr

/-- The events map of run after all files settle: exactly the events the
successful tasks registered, in file order. -/
def collectEvents (files : List FileInput) : List (String × EventData) :=
  files.filterMap (fun f => (processFile f).registered)

/-- The manifest writer of run: one entry per registered event whose URL
is the pages URL, the fixed /events/ segment and the relative path. -/
def buildIndex (pagesUrl : String) (events : List (String × EventData)) :
    List IndexEntry :=
  events.map (fun e => { path := e.1, url := pagesUrl ++ ("/events/") ++ e.1 })

/-- A value thrown during run: either an Error instance carrying a
message, or any other thrown value. -/
inductive Thrown where
  | errorVal (message : String)
  | nonError (desc : String)
  deriving DecidableEq, Repr

/-- The outermost try/catch of run: an Error instance becomes
core.setFailed(error.message); any other thrown value is caught and
silently ignored. -/
def runCatch (outcome : Except Thrown RunEnd) : RunEnd :=
  match outcome with
  | Except.ok r => r
  | Except.error (Thrown.errorVal m) => { setFailedMsg := some m, infoMsg := none }
  | Except.error (Thrown.nonError _) => { setFailedMsg := none, infoMsg := none }

/-- Whether run registers the file as a validated event: not hidden,
JSON.parse succeeds and the schema accepts it. -/
def validatedB (f : FileInput) : Bool :=
  !f.hidden && f.jsonParses && (match f.schema with
    | Except.ok _ => true
    | Except.error _ => false)

theorem jsSplit_ne_nil (sep : Char) (l : List Char) : jsSplit sep l ≠ [] := by
  cases l with
  | nil => simp [jsSplit]
  | cons c cs =>
    simp only [jsSplit]
    split <;> simp

theorem jsSplit_length (sep : Char) (l : List Char) :
    (jsSplit sep l).length = l.count sep + 1 := by
  induction l with
  | nil => simp [jsSplit]
  | cons c cs ih =>
    simp only [jsSplit, List.count_cons]
    by_cases h : c = sep
    · simp [h, ih]
    · have hne := jsSplit_ne_nil sep cs
      have hpos : 0 < (jsSplit sep cs).length := List.length_pos.mpr hne
      have hbeq : (c == sep) = false := by
        simp [beq_eq_false_iff_ne, h]
      simp only [if_neg h, List.length_cons, List.length_tail, hbeq, Bool.false_eq_true,
        if_false]
      omega

theorem getPosition_line (text : List Char) (o : Nat) :
    (getPosition text o).line = ((text.take o).count '\n' : Int) := by
  simp [getPosition, jsSplit_length]

theorem lastIdxBelow_ge (c : Char) (text : List Char) (k : Nat) :
    -1 ≤ lastIdxBelow c text k := by
  induction k with
  | zero => simp [lastIdxBelow]
  | succ k ih =>
    simp only [lastIdxBelow]
    split
    · omega
    · exact ih

theorem lastIdxBelow_lt (c : Char) (text : List Char) (k : Nat) :
    lastIdxBelow c text k < (k : Int) := by
  induction k with
  | zero => simp [lastIdxBelow]
  | succ k ih =>
    simp only [lastIdxBelow]
    split
    · omega
    · omega

theorem lastIdxBelow_eq_neg_one_iff (c : Char) (text : List Char) (k : Nat) :
    lastIdxBelow c text k = -1 ↔ (text.take k).count c = 0 := by
  induction k with
  | zero => simp [lastIdxBelow]
  | succ k ih =>
    rw [List.take_succ]
    simp only [lastIdxBelow, List.count_append]
    by_cases h : text[k]? = some c
    · simp only [if_pos h, h, Option.toList_some, if_true]
      have h1 : ([c].count c) = 1 := by simp
      constructor
      · intro hk
        exact absurd hk (by omega)
      · intro hcount; omega
    · simp only [if_neg h, ih]
      have : (text[k]?.toList).count c = 0 := by
        cases hg : text[k]? with
        | none => simp
        | some a =>
          have hac : ¬ (a == c) = true := by
            simp only [beq_iff_eq]
            intro hac; exact h (by rw [hg, hac])
          simp [List.count_singleton, hac]
      omega

theorem lastIdxBelow_cons (c a : Char) (t : List Char) (k : Nat) :
    lastIdxBelow c (a :: t) (k + 1) =
      if 0 ≤ lastIdxBelow c t k then lastIdxBelow c t k + 1
      else if a = c then 0 else -1 := by
  induction k with
  | zero =>
    by_cases h : a = c
    · subst h
      simp [lastIdxBelow]
    · have hne : (a :: t)[0]? ≠ some c := by simp [h]
      simp [lastIdxBelow, hne, h]
  | succ k ih =>
    have hstep : lastIdxBelow c (a :: t) (k + 1 + 1)
        = if (a :: t)[k + 1]? = some c then ((k + 1 : Nat) : Int)
          else lastIdxBelow c (a :: t) (k + 1) := rfl
    by_cases h : t[k]? = some c
    · have h1 : lastIdxBelow c t (k + 1) = (k : Int) := by
        simp only [lastIdxBelow, if_pos h]
      have hg : (a :: t)[k + 1]? = some c := by
        rw [List.getElem?_cons_succ]; exact h
      rw [hstep, if_pos hg, h1, if_pos (by omega : (0 : Int) ≤ (k : Int))]
      omega
    · have h1 : lastIdxBelow c t (k + 1) = lastIdxBelow c t k := by
        simp only [lastIdxBelow, if_neg h]
      have hg : (a :: t)[k + 1]? ≠ some c := by
        rw [List.getElem?_cons_succ]; exact h
      rw [hstep, if_neg hg, ih, h1]

theorem lastIdxBelow_nonneg_of_count_pos (c : Char) (text : List Char) (k : Nat)
    (h : 0 < (text.take k).count c) : 0 ≤ lastIdxBelow c text k := by
  have hge := lastIdxBelow_ge c text k
  have hiff := lastIdxBelow_eq_neg_one_iff c text k
  by_contra hlt
  have : lastIdxBelow c text k = -1 := by omega
  have := hiff.mp this
  omega

theorem getPosition_column_of_pos (text : List Char) (o : Nat) (h1 : 1 ≤ o)
    (h2 : o ≤ text.length) :
    (getPosition text o).column = (o : Int) - lastIdxBelow '\n' text o - 1 := by
  simp only [getPosition, lastIndexOf]
  have hb : (min (max ((o : Int) - 1) 0) ((text.length : Nat) : Int)).toNat + 1 = o := by
    omega
  rw [hb]

theorem getPosition_column_zero (text : List Char) :
    (getPosition text 0).column = if text[0]? = some '\n' then -1 else 0 := by
  simp only [getPosition, lastIndexOf]
  have hb : (min (max ((0 : Nat) - 1 : Int) 0) ((text.length : Nat) : Int)).toNat + 1 = 1 := by
    omega
  rw [hb]
  by_cases hc : text[0]? = some '\n'
  · simp only [lastIdxBelow, if_pos hc, hc, if_true]
    omega
  · simp only [lastIdxBelow, if_neg hc, hc, if_false]
    omega

theorem sumFirst_count (text : List Char) :
    ∀ o : Nat, o ≤ text.length →
      sumFirst (jsSplit '\n' text) ((text.take o).count '\n')
        = lastIdxBelow '\n' text o + 1 := by
  induction text with
  | nil =>
    intro o ho
    obtain rfl : o = 0 := by simpa using ho
    simp [jsSplit, sumFirst, lastIdxBelow]
  | cons c cs ih =>
    intro o ho
    cases o with
    | zero =>
      simp [sumFirst, lastIdxBelow]
    | succ o' =>
      have ho' : o' ≤ cs.length := by simpa using ho
      rw [List.take_succ_cons]
      by_cases hc : c = '\n'
      · subst hc
        rw [List.count_cons_self]
        have hsplit : jsSplit '\n' ('\n' :: cs) = [] :: jsSplit '\n' cs := by
          simp [jsSplit]
        rw [hsplit]
        have hsum : sumFirst ([] :: jsSplit '\n' cs) ((cs.take o').count '\n' + 1)
            = 1 + sumFirst (jsSplit '\n' cs) ((cs.take o').count '\n') := by
          show (([] : List Char).length : Int) + 1 + _ = _
          simp
        rw [hsum, ih o' ho', lastIdxBelow_cons]
        have hge := lastIdxBelow_ge '\n' cs o'
        by_cases hb : (0 : Int) ≤ lastIdxBelow '\n' cs o'
        · rw [if_pos hb]; omega
        · rw [if_neg hb, if_pos rfl]; omega
      · rw [List.count_cons_of_ne (fun h => hc h.symm)]
        obtain ⟨h₀, t₀, hsplit₀⟩ := List.exists_cons_of_ne_nil (jsSplit_ne_nil '\n' cs)
        have hsplit : jsSplit '\n' (c :: cs) = (c :: h₀) :: t₀ := by
          simp [jsSplit, if_neg hc, hsplit₀]
        rw [hsplit, lastIdxBelow_cons]
        have hge := lastIdxBelow_ge '\n' cs o'
        cases hm : (cs.take o').count '\n' with
        | zero =>
          have hneg : lastIdxBelow '\n' cs o' = -1 :=
            (lastIdxBelow_eq_neg_one_iff '\n' cs o').mpr hm
          rw [hneg]
          have : ¬ (0 : Int) ≤ -1 := by omega
          rw [if_neg this, if_neg hc]
          show (0 : Int) = -1 + 1
          omega
        | succ m =>
          have hpos : 0 ≤ lastIdxBelow '\n' cs o' :=
            lastIdxBelow_nonneg_of_count_pos '\n' cs o' (by omega)
          rw [if_pos hpos]
          have hihs := ih o' ho'
          rw [hm, hsplit₀] at hihs
          have hihs' : ((h₀.length : Int) + 1) + sumFirst t₀ m
              = lastIdxBelow '\n' cs o' + 1 := hihs
          have hstep : sumFirst ((c :: h₀) :: t₀) (m + 1)
              = ((c :: h₀).length : Int) + 1 + sumFirst t₀ m := rfl
          rw [hstep]
          simp only [List.length_cons]
          push_cast
          omega

theorem count_take_mono (c : Char) (text : List Char) (o1 o2 : Nat) (h : o1 ≤ o2) :
    (text.take o1).count c ≤ (text.take o2).count c := by
  have heq : text.take o1 = (text.take o2).take o1 := by
    rw [List.take_take, min_eq_left h]
  rw [heq]
  exact (List.take_sublist _ _).count_le c

theorem no_char_in_gap (c : Char) (text : List Char) (o1 o2 : Nat) (h12 : o1 ≤ o2)
    (heq : (text.take o1).count c = (text.take o2).count c) :
    ∀ j, o1 ≤ j → j < o2 → text[j]? ≠ some c := by
  intro j hj1 hj2 hg
  have h1 := count_take_mono c text o1 j hj1
  have h3 := count_take_mono c text (j + 1) o2 (by omega)
  have h2 : (text.take (j + 1)).count c = (text.take j).count c + 1 := by
    rw [List.take_succ, List.count_append, hg]
    simp
  omega

theorem lastIdxBelow_stable (c : Char) (text : List Char) (o1 o2 : Nat) (h12 : o1 ≤ o2)
    (hgap : ∀ j, o1 ≤ j → j < o2 → text[j]? ≠ some c) :
    lastIdxBelow c text o2 = lastIdxBelow c text o1 := by
  obtain ⟨d, rfl⟩ := Nat.exists_eq_add_of_le h12
  induction d with
  | zero => rfl
  | succ d ih =>
    have hstep : lastIdxBelow c text (o1 + (d + 1))
        = if text[o1 + d]? = some c then ((o1 + d : Nat) : Int)
          else lastIdxBelow c text (o1 + d) := rfl
    rw [hstep, if_neg (hgap (o1 + d) (by omega) (by omega))]
    exact ih (by omega) (fun j hj1 hj2 => hgap j hj1 (by omega))

theorem reconstruct_getPosition (text : List Char) (o : Nat) (h : o ≤ text.length)
    (hside : 1 ≤ o ∨ text[0]? ≠ some '\n') :
    reconstruct text (getPosition text o) = (o : Int) := by
  have hline := getPosition_line text o
  unfold reconstruct
  rw [hline, Int.toNat_natCast]
  by_cases h0 : 1 ≤ o
  · have hcol := getPosition_column_of_pos text o h0 h
    have hsum := sumFirst_count text o h
    rw [hcol, hsum]
    omega
  · obtain rfl : o = 0 := by omega
    have hhead : text[0]? ≠ some '\n' := by
      cases hside with
      | inl h1 => omega
      | inr h2 => exact h2
    have hcol := getPosition_column_zero text
    rw [if_neg hhead] at hcol
    rw [hcol]
    simp [sumFirst]

/-- C1: the position resolver's line is the number of line breaks in the
prefix before the offset; its column is the offset minus the index of the
last line break at or before offset - 1 (or -1 when none) minus 1, EXCEPT
at offset 0 on a text whose first character is a line break, where the
JavaScript lastIndexOf clamps the fromIndex -1 up to 0 and the column
comes out as -1 instead of 0; at offset 0 on any other text the result is
line 0, column 0. -/
theorem claim1_getPosition_formula (text : List Char) (o : Nat) (h : o ≤ text.length) :
    (getPosition text o).line = ((text.take o).count '\n' : Int)
    ∧ (1 ≤ o ∨ text[0]? ≠ some '\n' →
        (getPosition text o).column = (o : Int) - lastIdxBelow '\n' text o - 1)
    ∧ (o = 0 → text[0]? ≠ some '\n' → getPosition text o = { line := 0, column := 0 })
    ∧ (o = 0 → text[0]? = some '\n' → getPosition text o = { line := 0, column := -1 }) := by
  refine ⟨getPosition_line text o, ?_, ?_, ?_⟩
  · intro hside
    by_cases h0 : 1 ≤ o
    · exact getPosition_column_of_pos text o h0 h
    · obtain rfl : o = 0 := by omega
      have hhead : text[0]? ≠ some '\n' := by
        cases hside with
        | inl h1 => omega
        | inr h2 => exact h2
      have hcol := getPosition_column_zero text
      rw [if_neg hhead] at hcol
      rw [hcol]
      show (0 : Int) = 0 - lastIdxBelow '\n' text 0 - 1
      show (0 : Int) = 0 - -1 - 1
      omega
  · intro h0 hhead
    subst h0
    ext
    · rw [getPosition_line]
      simp
    · rw [getPosition_column_zero, if_neg hhead]
  · intro h0 hhead
    subst h0
    ext
    · rw [getPosition_line]
      simp
    · rw [getPosition_column_zero, if_pos hhead]

/-- C1 counterexample: at offset 0 on the text consisting of a single
newline, getPosition returns column -1, not column 0 as the claim states
for every text. -/
theorem claim1_counterexample :
    getPosition ['\n'] 0 ≠ { line := 0, column := 0 }
    ∧ getPosition ['\n'] 0 = { line := 0, column := -1 } := by
  constructor <;> decide

/-- C1 witness: the amended formula evaluated at a concrete text and
offset. -/
theorem claim1_witness :
    (getPosition ['a', '\n', 'b'] 3).line = (((['a', '\n', 'b'] : List Char).take 3).count '\n' : Int)
    ∧ (getPosition ['a', '\n', 'b'] 3).column
        = (3 : Int) - lastIdxBelow '\n' ['a', '\n', 'b'] 3 - 1 := by
  have h := claim1_getPosition_formula ['a', '\n', 'b'] 3 (by decide)
  exact ⟨h.1, h.2.1 (Or.inl (by decide))⟩

/-- C2: the line equals the count of newline characters strictly before
the offset, for every valid offset; the round trip rebuilding the offset
from (line, column) and the line lengths is exact for every offset of at
least 1 and at offset 0 whenever the text does not start with a newline;
at offset 0 on a text starting with a newline the rebuilt value is -1. -/
theorem claim2_roundTrip (text : List Char) (o : Nat) (h : o ≤ text.length) :
    (getPosition text o).line = ((text.take o).count '\n' : Int)
    ∧ (1 ≤ o ∨ text[0]? ≠ some '\n' →
        reconstruct text (getPosition text o) = (o : Int)) :=
  ⟨getPosition_line text o, fun hs => reconstruct_getPosition text o h hs⟩

/-- C2 counterexample: at offset 0 on the text consisting of a single
newline, the reconstruction yields -1, not 0, so the round trip fails
there. -/
theorem claim2_counterexample :
    reconstruct ['\n'] (getPosition ['\n'] 0) = -1
    ∧ reconstruct ['\n'] (getPosition ['\n'] 0) ≠ (0 : Int) := by
  constructor <;> decide

/-- C2 witness: the round trip evaluated at a concrete text and offset. -/
theorem claim2_witness :
    reconstruct ['a', '\n', 'b'] (getPosition ['a', '\n', 'b'] 3) = (3 : Int) :=
  (claim2_roundTrip ['a', '\n', 'b'] 3 (by decide)).2 (Or.inl (by decide))

theorem findNodeAtLocation_append (node : JsonNode) (p q : List PathStep) :
    findNodeAtLocation node (p ++ q)
      = (findNodeAtLocation node p).bind (fun m => findNodeAtLocation m q) := by
  induction p generalizing node with
  | nil => simp [findNodeAtLocation]
  | cons s rest ih =>
    show findNodeAtLocation node (s :: (rest ++ q)) = _
    simp only [findNodeAtLocation]
    cases resolveStep node s with
    | none => simp
    | some n => simpa using ih n

/-- C3: a logical path containing a step that cannot be resolved makes the
locator return none (it is a total function, so it cannot raise), the
diagnostic emitted for that issue keeps the message and the file but none
of the four span fields, and the annotation loop still emits one
diagnostic for every issue of the list. -/
theorem claim3_locator_miss (file : String) (content : List Char) (tree t : JsonNode)
    (pre : List PathStep) (step : PathStep) (post : List PathStep) (msg : String)
    (issues : List Issue)
    (hpre : findNodeAtLocation tree pre = some t)
    (hstep : resolveStep t step = none) :
    findNodeAtLocation tree (pre ++ step :: post) = none
    ∧ issueDiagnostic file content tree { path := pre ++ step :: post, message := msg }
        = { message := msg, file := file, startLine := none, startColumn := none,
            endLine := none, endColumn := none }
    ∧ (annotateIssues file content (some tree) issues).length = issues.length := by
  have hnone : findNodeAtLocation tree (pre ++ step :: post) = none := by
    rw [findNodeAtLocation_append, hpre]
    show findNodeAtLocation t (step :: post) = none
    simp only [findNodeAtLocation, hstep]
  refine ⟨hnone, ?_, ?_⟩
  · simp only [issueDiagnostic, hnone]
  · simp [annotateIssues]

/-- C3 witness: a missing object key on a concrete empty object. -/
theorem claim3_witness :
    findNodeAtLocation (JsonNode.obj 0 2 []) ([] ++ PathStep.key ("name") :: []) = none
    ∧ issueDiagnostic ("a.json") [] (JsonNode.obj 0 2 [])
        { path := [] ++ PathStep.key ("name") :: [], message := ("Required") }
        = { message := ("Required"), file := ("a.json"), startLine := none,
            startColumn := none, endLine := none, endColumn := none }
    ∧ (annotateIssues ("a.json") [] (some (JsonNode.obj 0 2 []))
        [{ path := [PathStep.key ("name")], message := ("Required") }]).length = 1 :=
  claim3_locator_miss ("a.json") [] (JsonNode.obj 0 2 []) (JsonNode.obj 0 2 [])
    [] (PathStep.key ("name")) [] ("Required")
    [{ path := [PathStep.key ("name")], message := ("Required") }] rfl rfl

/-- C4 amended: on a JSON parse failure the run pipeline counts the file
once and emits exactly one span-free diagnostic, but its message is
"Failed to parse JSON in file: " followed by the path, not
"Invalid JSON file!"; the checkEvents pipeline counts the file once and
emits exactly one span-free diagnostic with message "Invalid JSON file!". -/
theorem claim4_parse_failure (f : FileInput) (h0 : f.hidden = false)
    (h1 : f.jsonParses = false) :
    (processFile f).errorCountDelta = 1
    ∧ (processFile f).diagnostics
        = [{ message := ("Failed to parse JSON in file: ") ++ f.path, file := f.path,
             startLine := none, startColumn := none, endLine := none, endColumn := none }]
    ∧ checkFile f = CheckResult.parseErr f.path
    ∧ checkDiagnostics (checkFile f)
        = [{ message := ("Invalid JSON file!"), file := f.path, startLine := none,
             startColumn := none, endLine := none, endColumn := none }]
    ∧ isRejected (checkFile f) = true := by
  have hcf : checkFile f = CheckResult.parseErr f.path := by
    unfold checkFile
    rw [h0, h1]
    simp
  refine ⟨?_, ?_, hcf, ?_, ?_⟩
  · simp [processFile, h0, h1]
  · simp [processFile, h0, h1]
  · rw [hcf]
    rfl
  · rw [hcf]
    rfl

/-- C4 counterexample: in run, the diagnostic for an unparseable file has
message "Failed to parse JSON in file: events/a.json", which is not the
"Invalid JSON file!" the claim states. -/
theorem claim4_counterexample :
    (processFile { path := ("events/a.json"), content := [], hidden := false,
                   jsonParses := false, schema := Except.error [],
                   tree := none }).diagnostics.map Diagnostic.message
      = [("Failed to parse JSON in file: events/a.json")]
    ∧ ("Failed to parse JSON in file: events/a.json") ≠ ("Invalid JSON file!") := by
  constructor <;> decide

/-- C4 witness: the amended behaviour at a concrete unparseable file. -/
theorem claim4_witness :
    (processFile { path := ("b.json"), content := [], hidden := false,
                   jsonParses := false, schema := Except.error [],
                   tree := none }).errorCountDelta = 1
    ∧ checkDiagnostics (checkFile { path := ("b.json"), content := [], hidden := false,
                                    jsonParses := false, schema := Except.error [],
                                    tree := none })
        = [{ message := ("Invalid JSON file!"), file := ("b.json"), startLine := none,
             startColumn := none, endLine := none, endColumn := none }] := by
  have h := claim4_parse_failure { path := ("b.json"), content := [], hidden := false,
                                   jsonParses := false, schema := Except.error [],
                                   tree := none } rfl rfl
  exact ⟨h.1, h.2.2.2.1⟩

/-- C5: a file that parses as JSON but fails schema validation with k
issues (and whose tolerant parse yields a tree) contributes exactly one
errorCount increment and exactly one diagnostic per issue, and whenever
the locator finds the issue's node the diagnostic's span starts at
node.offset and ends at node.offset + node.length, both converted through
the position resolver with 1 added to line and column. -/
theorem claim5_schema_diagnostics (f : FileInput) (t : JsonNode) (issues : List Issue)
    (h0 : f.hidden = false) (h1 : f.jsonParses = true)
    (h2 : f.schema = Except.error issues) (h3 : f.tree = some t) :
    (processFile f).errorCountDelta = 1
    ∧ (processFile f).diagnostics.length = issues.length
    ∧ (∀ (j : Nat) (issue : Issue), issues[j]? = some issue →
        ∀ node, findNodeAtLocation t issue.path = some node →
          (processFile f).diagnostics[j]?
            = some { message := issue.message, file := f.path,
                     startLine := some ((getPosition f.content node.offset).line + 1),
                     startColumn := some ((getPosition f.content node.offset).column + 1),
                     endLine := some ((getPosition f.content (node.offset + node.length)).line + 1),
                     endColumn := some ((getPosition f.content (node.offset + node.length)).column + 1) }) := by
  have hpf : processFile f
      = { errorCountDelta := 1,
          diagnostics := annotateIssues f.path f.content f.tree issues,
          infoLogs := [], registered := none } := by
    unfold processFile
    rw [h0, h1, h2]
    simp
  rw [hpf, h3]
  refine ⟨rfl, ?_, ?_⟩
  · simp [annotateIssues]
  · intro j issue hj node hnode
    simp only [annotateIssues]
    rw [List.getElem?_map, hj]
    simp only [Option.map_some']
    unfold issueDiagnostic
    rw [hnode]

/-- C5 witness: a concrete schema failure on a four-character document
with one issue located at a one-character node on the second line. -/
theorem claim5_witness :
    (processFile
      { path := ("e.json"), content := ['{', '\n', 'a', '}'], hidden := false,
        jsonParses := true,
        schema := Except.error [{ path := [PathStep.key ("a")], message := ("bad") }],
        tree := some (JsonNode.obj 0 4 [(("a"), JsonNode.lit 2 1)]) }).errorCountDelta = 1
    ∧ (processFile
      { path := ("e.json"), content := ['{', '\n', 'a', '}'], hidden := false,
        jsonParses := true,
        schema := Except.error [{ path := [PathStep.key ("a")], message := ("bad") }],
        tree := some (JsonNode.obj 0 4 [(("a"), JsonNode.lit 2 1)]) }).diagnostics[0]?
        = some { message := ("bad"), file := ("e.json"), startLine := some 2,
                 startColumn := some 1, endLine := some 2, endColumn := some 2 } := by
  have h := claim5_schema_diagnostics
    { path := ("e.json"), content := ['{', '\n', 'a', '}'], hidden := false,
      jsonParses := true,
      schema := Except.error [{ path := [PathStep.key ("a")], message := ("bad") }],
      tree := some (JsonNode.obj 0 4 [(("a"), JsonNode.lit 2 1)]) }
    (JsonNode.obj 0 4 [(("a"), JsonNode.lit 2 1)])
    [{ path := [PathStep.key ("a")], message := ("bad") }] rfl rfl rfl rfl
  refine ⟨h.1, ?_⟩
  have h2 := h.2.2 0 { path := [PathStep.key ("a")], message := ("bad") } rfl
    (JsonNode.lit 2 1) rfl
  rw [h2]
  decide

/-- C6 amended: when the tolerant parse returns a null tree for a file
with schema issues, the annotator returns before emitting, so the file's
issues produce no diagnostics at all (they are dropped, not degraded to
file-level); the errorCount increment for the file still happens. -/
theorem claim6_null_tree (f : FileInput) (issues : List Issue)
    (h0 : f.hidden = false) (h1 : f.jsonParses = true)
    (h2 : f.schema = Except.error issues) (h3 : f.tree = none) :
    (processFile f).diagnostics = []
    ∧ (processFile f).errorCountDelta = 1
    ∧ checkDiagnostics (checkFile f) = [] := by
  have hcf : checkFile f = CheckResult.schemaErr f.path issues f.tree f.content := by
    unfold checkFile
    rw [h0, h1, h2]
    simp
  have hpf : processFile f
      = { errorCountDelta := 1,
          diagnostics := annotateIssues f.path f.content f.tree issues,
          infoLogs := [], registered := none } := by
    unfold processFile
    rw [h0, h1, h2]
    simp
  refine ⟨?_, ?_, ?_⟩
  · rw [hpf, h3]
    rfl
  · rw [hpf]
  · rw [hcf, h3]
    rfl

/-- C6 counterexample: with a null tree and one schema issue the
annotation loop emits no diagnostic at all, not the one file-level
diagnostic per issue the claim states. -/
theorem claim6_counterexample :
    (annotateIssues ("f.json") [] none [{ path := [], message := ("Required") }]).length ≠ 1
    ∧ annotateIssues ("f.json") [] none [{ path := [], message := ("Required") }] = [] := by
  constructor <;> decide

/-- C6 witness: the amended behaviour at a concrete file whose tree is
null. -/
theorem claim6_witness :
    (processFile { path := ("g.json"), content := [], hidden := false, jsonParses := true,
                   schema := Except.error [{ path := [], message := ("Required") }],
                   tree := none }).diagnostics = []
    ∧ (processFile { path := ("g.json"), content := [], hidden := false, jsonParses := true,
                     schema := Except.error [{ path := [], message := ("Required") }],
                     tree := none }).errorCountDelta = 1 := by
  have h := claim6_null_tree
    { path := ("g.json"), content := [], hidden := false, jsonParses := true,
      schema := Except.error [{ path := [], message := ("Required") }], tree := none }
    [{ path := [], message := ("Required") }] rfl rfl rfl rfl
  exact ⟨h.1, h.2.1⟩

/-- C7: after all per-file tasks settle, run calls setFailed exactly when
the accumulated errorCount is positive, with a message naming that count;
when the errorCount is zero it logs the completion line instead and does
not call setFailed. -/
theorem claim7_final_outcome (files : List FileInput) :
    ((runEnd (totalErrors files)).setFailedMsg ≠ none ↔ 0 < totalErrors files)
    ∧ (totalErrors files = 0 →
        runEnd (totalErrors files)
          = { setFailedMsg := none, infoMsg := some ("Complete") })
    ∧ (0 < totalErrors files →
        runEnd (totalErrors files)
          = { setFailedMsg := some (("Event data validation failed for ")
              ++ toString (totalErrors files) ++ (" event(s).")), infoMsg := none }) := by
  unfold runEnd
  by_cases h : 0 < totalErrors files
  · rw [if_pos h]
    exact ⟨⟨fun _ => h, fun _ => by simp⟩, fun hz => absurd hz (by omega), fun _ => rfl⟩
  · rw [if_neg h]
    exact ⟨⟨fun hc => absurd rfl hc, fun hp => absurd hp h⟩, fun _ => rfl,
      fun hp => absurd hp h⟩

/-- C7 witness: one failing file makes run call setFailed with the count 1
in the message. -/
theorem claim7_witness :
    runEnd (totalErrors [{ path := ("h.json"), content := [], hidden := false,
                           jsonParses := false, schema := Except.error [],
                           tree := none }])
      = { setFailedMsg := some (("Event data validation failed for ")
          ++ toString (totalErrors [{ path := ("h.json"), content := [], hidden := false,
                                      jsonParses := false, schema := Except.error [],
                                      tree := none }]) ++ (" event(s).")),
          infoMsg := none } :=
  (claim7_final_outcome [{ path := ("h.json"), content := [], hidden := false,
                           jsonParses := false, schema := Except.error [],
                           tree := none }]).2.2 (by decide)

theorem registered_eq_validated (f : FileInput) :
    (processFile f).registered.isSome = validatedB f := by
  obtain ⟨p, cont, hid, jp, sch, tr⟩ := f
  cases hid <;> cases jp <;> cases sch <;> simp [processFile, validatedB]

theorem collectEvents_length (files : List FileInput) :
    (collectEvents files).length = (files.filter validatedB).length := by
  induction files with
  | nil => rfl
  | cons f fs ih =>
    have hreg := registered_eq_validated f
    cases hr : (processFile f).registered with
    | none =>
      have hv : validatedB f = false := by rw [← hreg, hr]; rfl
      simpa [collectEvents, List.filterMap_cons, hr, List.filter_cons, hv]
        using ih
    | some v =>
      have hv : validatedB f = true := by rw [← hreg, hr]; rfl
      simpa [collectEvents, List.filterMap_cons, hr, List.filter_cons, hv]
        using ih

/-- C8: the manifest holds exactly one entry per validated event — its
length is the number of files that are not hidden, parse and pass the
schema, its paths are exactly the registered events' paths in order, each
URL is the base URL followed by the fixed /events/ segment and the
relative path, and a file is registered exactly when it is validated (so
no failed or skipped file contributes an entry). -/
theorem claim8_index (base : String) (files : List FileInput) :
    (buildIndex base (collectEvents files)).length = (files.filter validatedB).length
    ∧ (buildIndex base (collectEvents files)).map IndexEntry.path
        = (collectEvents files).map Prod.fst
    ∧ (∀ e, e ∈ buildIndex base (collectEvents files) →
        e.url = base ++ ("/events/") ++ e.path)
    ∧ (∀ f, (processFile f).registered.isSome = validatedB f) := by
  refine ⟨?_, ?_, ?_, registered_eq_validated⟩
  · simp only [buildIndex, List.length_map]
    exact collectEvents_length files
  · simp [buildIndex, List.map_map]
  · intro e he
    simp only [buildIndex, List.mem_map] at he
    obtain ⟨ev, hmem, rfl⟩ := he
    rfl

/-- C8 witness: one validated event at path a/b.json with the GitHub
Pages base URL produces exactly the URL of the spec's example. -/
theorem claim8_witness :
    IndexEntry.url { path := ("a/b.json"),
                     url := ("https://owner.github.io/repo/events/a/b.json") }
      = ("https://owner.github.io/repo") ++ ("/events/")
        ++ IndexEntry.path { path := ("a/b.json"),
                             url := ("https://owner.github.io/repo/events/a/b.json") } :=
  (claim8_index ("https://owner.github.io/repo")
    [{ path := ("a/b.json"), content := [], hidden := false, jsonParses := true,
       schema := Except.ok { payload := [] }, tree := none }]).2.2.1
    { path := ("a/b.json"), url := ("https://owner.github.io/repo/events/a/b.json") }
    (by decide)

/-- C9 amended: the outermost boundary catches every thrown value exactly
once (the model is a total function of the thrown value, so the run never
crashes), but only an Error instance is converted into a failed outcome
carrying its message; any other thrown value is swallowed: no setFailed
call is made and the run ends as if successful. -/
theorem claim9_error_boundary (m d : String) (r : RunEnd) :
    runCatch (Except.error (Thrown.errorVal m))
      = { setFailedMsg := some m, infoMsg := none }
    ∧ runCatch (Except.error (Thrown.nonError d))
      = { setFailedMsg := none, infoMsg := none }
    ∧ runCatch (Except.ok r) = r :=
  ⟨rfl, rfl, rfl⟩

/-- C9 counterexample: a thrown non-Error value (for example a string)
produces no setFailed call at all, so the run does not end in a failed
outcome carrying the exception's message as the claim states. -/
theorem claim9_counterexample :
    (runCatch (Except.error (Thrown.nonError ("boom")))).setFailedMsg = none
    ∧ runCatch (Except.error (Thrown.nonError ("boom")))
        = { setFailedMsg := none, infoMsg := none } :=
  ⟨rfl, rfl⟩

theorem lexLe_shift (p q : Position) (h : Position.lexLe p q) :
    Position.lexLe { line := p.line + 1, column := p.column + 1 }
      { line := q.line + 1, column := q.column + 1 } := by
  rcases h with h | ⟨h1, h2⟩
  · left
    show p.line + 1 < q.line + 1
    omega
  · right
    refine ⟨?_, ?_⟩
    · show p.line + 1 = q.line + 1
      omega
    · show p.column + 1 ≤ q.column + 1
      omega

theorem getPosition_mono (text : List Char) (o1 o2 : Nat) (h12 : o1 ≤ o2)
    (h2 : o2 ≤ text.length) :
    Position.lexLe (getPosition text o1) (getPosition text o2) := by
  have hl1 := getPosition_line text o1
  have hl2 := getPosition_line text o2
  have hcount := count_take_mono '\n' text o1 o2 h12
  by_cases heq : (text.take o1).count '\n' = (text.take o2).count '\n'
  · by_cases ho : o1 = o2
    · subst ho
      right
      exact ⟨rfl, le_refl _⟩
    · right
      refine ⟨by rw [hl1, hl2, heq], ?_⟩
      have hgap := no_char_in_gap '\n' text o1 o2 h12 heq
      by_cases h0 : 1 ≤ o1
      · have hc1 := getPosition_column_of_pos text o1 h0 (by omega)
        have hc2 := getPosition_column_of_pos text o2 (by omega) h2
        have hst := lastIdxBelow_stable '\n' text o1 o2 h12 hgap
        rw [hc1, hc2, hst]
        omega
      · obtain rfl : o1 = 0 := by omega
        have ho2 : 1 ≤ o2 := by omega
        have hhead : text[0]? ≠ some '\n' := hgap 0 (by omega) (by omega)
        have hc1 := getPosition_column_zero text
        rw [if_neg hhead] at hc1
        have hc2 := getPosition_column_of_pos text o2 ho2 h2
        have hst : lastIdxBelow '\n' text o2 = lastIdxBelow '\n' text 0 :=
          lastIdxBelow_stable '\n' text 0 o2 (by omega) hgap
        have hz : lastIdxBelow '\n' text 0 = -1 := rfl
        rw [hc1, hc2, hst, hz]
        omega
  · left
    rw [hl1, hl2]
    have hlt : (text.take o1).count '\n' < (text.take o2).count '\n' := by omega
    exact_mod_cast hlt

/-- C10: the position resolver is monotone in the offset — for offsets
o1 at most o2, both within the text, the (line, column) pair at o1 is
lexicographically at most the pair at o2 — and consequently every located
diagnostic has its start position lexicographically at most its end
position, the node's span lying within the document. -/
theorem claim10_monotone :
    (∀ (text : List Char) (o1 o2 : Nat), o1 ≤ o2 → o2 ≤ text.length →
      Position.lexLe (getPosition text o1) (getPosition text o2))
    ∧ (∀ (file : String) (content : List Char) (tree : JsonNode) (issue : Issue)
        (node : JsonNode), findNodeAtLocation tree issue.path = some node →
        node.offset + node.length ≤ content.length →
        ∃ sl sc el ec,
          (issueDiagnostic file content tree issue).startLine = some sl
          ∧ (issueDiagnostic file content tree issue).startColumn = some sc
          ∧ (issueDiagnostic file content tree issue).endLine = some el
          ∧ (issueDiagnostic file content tree issue).endColumn = some ec
          ∧ Position.lexLe { line := sl, column := sc } { line := el, column := ec }) := by
  refine ⟨getPosition_mono, ?_⟩
  intro file content tree issue node hnode hlen
  have hd : issueDiagnostic file content tree issue
      = { message := issue.message, file := file,
          startLine := some ((getPosition content node.offset).line + 1),
          startColumn := some ((getPosition content node.offset).column + 1),
          endLine := some ((getPosition content (node.offset + node.length)).line + 1),
          endColumn := some ((getPosition content (node.offset + node.length)).column + 1) } := by
    unfold issueDiagnostic
    rw [hnode]
  refine ⟨(getPosition content node.offset).line + 1,
    (getPosition content node.offset).column + 1,
    (getPosition content (node.offset + node.length)).line + 1,
    (getPosition content (node.offset + node.length)).column + 1,
    by rw [hd], by rw [hd], by rw [hd], by rw [hd], ?_⟩
  exact lexLe_shift _ _
    (getPosition_mono content node.offset (node.offset + node.length)
      (Nat.le_add_right _ _) hlen)

/-- C10 witness: monotonicity at concrete offsets 1 and 3 of a
three-character text, and the located span of a concrete root node. -/
theorem claim10_witness :
    Position.lexLe (getPosition ['a', '\n', 'b'] 1) (getPosition ['a', '\n', 'b'] 3)
    ∧ ∃ sl sc el ec,
        (issueDiagnostic ("w.json") ['a', '\n', 'b'] (JsonNode.lit 0 3)
          { path := [], message := ("m") }).startLine = some sl
        ∧ (issueDiagnostic ("w.json") ['a', '\n', 'b'] (JsonNode.lit 0 3)
            { path := [], message := ("m") }).startColumn = some sc
        ∧ (issueDiagnostic ("w.json") ['a', '\n', 'b'] (JsonNode.lit 0 3)
            { path := [], message := ("m") }).endLine = some el
        ∧ (issueDiagnostic ("w.json") ['a', '\n', 'b'] (JsonNode.lit 0 3)
            { path := [], message := ("m") }).endColumn = some ec
        ∧ Position.lexLe { line := sl, column := sc } { line := el, column := ec } :=
  ⟨claim10_monotone.1 ['a', '\n', 'b'] 1 3 (by decide) (by decide),
    claim10_monotone.2 ("w.json") ['a', '\n', 'b'] (JsonNode.lit 0 3)
      { path := [], message := ("m") } (JsonNode.lit 0 3) rfl (by decide)⟩
